import Mathlib

/-
Verification of the termagent conversation store, agent loop and shell tool
against their natural-language specification.

The definitions below are a shallow embedding of the JavaScript sources:
  * src/conversation/index.js  (ConversationManager, second revision in the
    repository dump: the one with token-budget pruning)
  * src/agent/index.js         (Agent.chat)
  * src/tools/shell.js         (checkCommandSafety, execute)
  * src/tools/index.js         (executeTool)

Modelling conventions:
  * JavaScript strings are Lean `String`s restricted to ASCII behaviour
    (String.length counts characters where JS counts UTF-16 units; identical
    for ASCII, which is all the claims exercise).
  * A JS value that may be `null`/`undefined` is an `Option`.
  * A message's `tool_calls` field is a `List`; the empty list models the
    field being absent (the store only ever writes non-empty arrays).
  * Timestamps, debug logging (logMessages / analyzeMessages, which do not
    affect getMessages' return value) and file persistence are elided.
  * Asynchronous effects are modelled by explicit oracles: the model stream
    is a function from turn index to a Turn, tool execution is a function
    from the call to its serialized result, and the raw command runner
    behind the shell tool is a function from the command string to an
    `Except` (exception = thrown error).
-/

namespace TermAgent

/-- Message roles, as the role strings of the source. -/
inductive Role where
  | system
  | user
  | assistant
  | tool
deriving DecidableEq

/-- A tool call as the agent and the store see it.
`name` is `none` when the model sent a missing or non-string name
(the source checks `tc && tc.name && typeof tc.name === 'string'`);
`arguments` is kept in its serialized string form (the source stringifies
non-string arguments on store). -/
structure ToolCall where
  id : String
  name : Option String
  arguments : String
deriving DecidableEq

/-- A stored message.  `content = none` models JS `null` content.
`tool_calls = []` models the field being absent. -/
structure Msg where
  role : Role
  content : Option String
  tool_calls : List ToolCall := []
  tool_call_id : Option String := none
  name : Option String := none
deriving DecidableEq

/-- JS array `slice(-n)`: the last `n` elements (everything when `n` exceeds
the length). -/
def takeLast (l : List α) (n : Nat) : List α :=
  l.drop (l.length - n)

/-- JS string truthiness of an optional string: not `null`/`undefined` and
not the empty string. -/
def truthy : Option String → Bool
  | none => false
  | some s => decide (s ≠ "")

/-- JS `content || null`: keep a truthy string, collapse falsy to `null`. -/
def jsOrNull : Option String → Option String
  | none => none
  | some s => if s = "" then none else some s

/-! Constants of src/conversation/index.js. -/

def MAX_HISTORY_MESSAGES : Nat := 100
def MAX_CONTEXT_TOKENS : Nat := 8000
def KEEP_RECENT_MESSAGES : Nat := 6
def TRUNCATE_TOOL_RESULTS : Nat := 500
def MAX_TOOL_MESSAGES : Nat := 20

/-- ConversationManager.addMessage: push the message, then, when the log
exceeds MAX_HISTORY_MESSAGES, trim to the system message (when found) plus
the last MAX_HISTORY_MESSAGES - 1 messages, or simply the last
MAX_HISTORY_MESSAGES messages when no system message exists. -/
def addMessage (msgs : List Msg) (m : Msg) : List Msg :=
  let pushed := msgs ++ [m]
  if pushed.length > MAX_HISTORY_MESSAGES then
    match pushed.find? (fun x => decide (x.role = Role.system)) with
    | some sys => sys :: takeLast pushed (MAX_HISTORY_MESSAGES - 1)
    | none => takeLast pushed MAX_HISTORY_MESSAGES
  else pushed

/-- ConversationManager.addToolResult: a tool message carrying the
serialized result (the source stringifies non-string results; the model
receives the result already serialized). -/
def addToolResult (msgs : List Msg) (toolCallId : String) (toolName : String)
    (result : String) : List Msg :=
  addMessage msgs
    { role := Role.tool, content := some result,
      tool_call_id := some toolCallId, name := some toolName }

/-- The message built by ConversationManager.addAssistantMessage:
content is `content || null` when tool calls are present and
`content || ''` otherwise; the tool_calls field is written only when the
call list is non-empty (a `null`/empty list leaves it absent). -/
def mkAssistantMsg (content : Option String) (toolCalls : List ToolCall) : Msg :=
  if toolCalls.isEmpty then
    { role := Role.assistant, content := some (content.getD "") }
  else
    { role := Role.assistant, content := jsOrNull content, tool_calls := toolCalls }

/-- ConversationManager.addAssistantMessage: pushes without any trimming. -/
def addAssistantMessage (msgs : List Msg) (content : Option String)
    (toolCalls : List ToolCall) : List Msg :=
  msgs ++ [mkAssistantMsg content toolCalls]

/-- ConversationManager.clear: keep only the (first) system message. -/
def clear (msgs : List Msg) : List Msg :=
  match msgs.find? (fun x => decide (x.role = Role.system)) with
  | some sys => [sys]
  | none => []

/-- ConversationManager.estimateTokens: 0 for falsy content, otherwise
`Math.ceil(length * 0.25)` = ⌈length / 4⌉. -/
def estimateTokens : Option String → Nat
  | none => 0
  | some s => if s = "" then 0 else (s.length + 3) / 4

/-- Token total of a view, as the `reduce` in getMessages. -/
def totalTokens (l : List Msg) : Nat :=
  (l.map (fun m => estimateTokens m.content)).sum

/-- The first mapping pass of getMessages: `null` content exactly for an
assistant message with tool calls and falsy stored content, the empty
string for every other falsy content; tool_call_id / name copied only when
tool_call_id is truthy; tool_calls copied when present. -/
def formatMsg (m : Msg) : Msg :=
  { role := m.role,
    content :=
      if m.role = Role.assistant ∧ m.tool_calls ≠ [] then jsOrNull m.content
      else some (m.content.getD ""),
    tool_call_id := if truthy m.tool_call_id then m.tool_call_id else none,
    name := if truthy m.tool_call_id then m.name else none,
    tool_calls := m.tool_calls }

/-- Truncation of an over-long tool result inside getMessages. -/
def truncateToolMsg (m : Msg) : Msg :=
  match m.content with
  | some s =>
    if m.role = Role.tool ∧ s ≠ "" ∧ s.length > TRUNCATE_TOOL_RESULTS then
      { m with content := some (s.take TRUNCATE_TOOL_RESULTS ++ "\n...[truncated]") }
    else m
  | none => m

/-- The tool-message ceiling pass of getMessages: when more than
MAX_TOOL_MESSAGES tool messages are present, keep the system message, user
messages, plain assistant messages, the last ⌈MAX_TOOL_MESSAGES / 3⌉
assistants-with-tool-calls and the tool results whose ids those recent
assistants declared. -/
def pruneToolMsgs (formatted : List Msg) : List Msg :=
  if (formatted.filter (fun m => decide (m.role = Role.tool))).length > MAX_TOOL_MESSAGES then
    let recentAssistants :=
      takeLast
        (formatted.filter (fun m => decide (m.role = Role.assistant ∧ m.tool_calls ≠ [])))
        ((MAX_TOOL_MESSAGES + 2) / 3)
    let recentIds :=
      (recentAssistants.map (fun a => a.tool_calls.map (fun tc => tc.id))).flatten
    formatted.filter (fun m =>
      if m.role = Role.system then true
      else if m.role = Role.user then true
      else if m.role = Role.assistant ∧ m.tool_calls = [] then true
      else if m.role = Role.assistant then
        m.tool_calls.any (fun tc => recentIds.contains tc.id)
      else if m.role = Role.tool then
        (match m.tool_call_id with
         | some i => recentIds.contains i
         | none => false)
      else true)
  else formatted

/-- ConversationManager.getMessages (second revision): format, return
directly when under budget, else prune tool pairs, truncate tool results,
and as a last resort collapse to the system message plus the last
KEEP_RECENT_MESSAGES non-system messages. -/
def getMessages (msgs : List Msg) : List Msg :=
  let formatted := msgs.map formatMsg
  if totalTokens formatted ≤ MAX_CONTEXT_TOKENS ∧ formatted.length ≤ 50 then
    formatted
  else
    let pruned := (pruneToolMsgs formatted).map truncateToolMsg
    if totalTokens pruned > MAX_CONTEXT_TOKENS then
      (match formatted.find? (fun m => decide (m.role = Role.system)) with
       | some s => [s]
       | none => []) ++
        takeLast (pruned.filter (fun m => decide (¬ m.role = Role.system)))
          KEEP_RECENT_MESSAGES
    else pruned

/-! ## src/tools/shell.js -/

/-- Word characters of the JS regex class `\w` (ASCII). -/
def isWordChar (c : Char) : Bool := c.isAlpha || c.isDigit || c = '_'

/-- Whitespace of the JS regex class `\s` (ASCII part). -/
def isJsSpace (c : Char) : Bool :=
  c = ' ' || c = '\t' || c = '\n' || c = '\r' || c = '\x0b' || c = '\x0c'

/-- Characters matched by the JS regex `.` without the s flag: anything but
a line terminator. -/
def isDotChar (c : Char) : Bool := !(c = '\n' || c = '\r')

/-- Consume an exact literal, returning the remaining characters. -/
def eatLit : List Char → List Char → Option (List Char)
  | [], rest => some rest
  | _ :: _, [] => none
  | c :: cs, d :: rest => if c = d then eatLit cs rest else none

/-- Consume `p`-characters greedily, one or more (regex `p+`).  Exact for
the patterns below because the token following a quantifier never starts
with a `p`-character. -/
def eatPlus (p : Char → Bool) : List Char → Option (List Char)
  | [] => none
  | c :: rest => if p c then some (rest.dropWhile p) else none

/-- A word boundary relative to the preceding character (start of input or
a non-word character before a word character). -/
def wordBoundaryBefore : Option Char → Bool
  | none => true
  | some c => !isWordChar c

/-- A word boundary after a word character: end of input or a non-word
character next. -/
def boundaryAfter : List Char → Bool
  | [] => true
  | c :: _ => !isWordChar c

/-- Try a test at every position of the input, handing it the previous
character (for word boundaries) and the remaining suffix. -/
def scanAux (test : Option Char → List Char → Bool) :
    Option Char → List Char → Bool
  | prev, [] => test prev []
  | prev, c :: rest => test prev (c :: rest) || scanAux test (some c) rest

def scan (test : Option Char → List Char → Bool) (l : List Char) : Bool :=
  scanAux test none l

/-- Regex `.*` followed by `test`: some possibly-empty prefix of
non-line-terminator characters, then the rest matches `test`. -/
def dotStarThen (test : List Char → Bool) : List Char → Bool
  | [] => test []
  | c :: rest => test (c :: rest) || (isDotChar c && dotStarThen test rest)

/-- Does a whole word occur (regex `\bw\b`, case already folded)? -/
def hasWord (w : String) (l : List Char) : Bool :=
  scan (fun prev suf =>
    wordBoundaryBefore prev &&
      (match eatLit w.toList suf with
       | some r => boundaryAfter r
       | none => false)) l

/-- Regex `\brm\s+(-rf?|--recursive)` on case-folded input. -/
def dangerRm (l : List Char) : Bool :=
  scan (fun prev suf =>
    wordBoundaryBefore prev &&
      (match eatLit "rm".toList suf with
       | some r1 =>
         (match eatPlus isJsSpace r1 with
          | some r2 =>
            (eatLit "-rf".toList r2).isSome || (eatLit "-r".toList r2).isSome ||
              (eatLit "--recursive".toList r2).isSome
          | none => false)
       | none => false)) l

/-- Regex `\bchmod\b.*777` on case-folded input. -/
def dangerChmod777 (l : List Char) : Bool :=
  scan (fun prev suf =>
    wordBoundaryBefore prev &&
      (match eatLit "chmod".toList suf with
       | some r =>
         boundaryAfter r &&
           dotStarThen (fun t => (eatLit "777".toList t).isSome) r
       | none => false)) l

/-- Regex `\bdd\s+if=` on case-folded input. -/
def dangerDdIf (l : List Char) : Bool :=
  scan (fun prev suf =>
    wordBoundaryBefore prev &&
      (match eatLit "dd".toList suf with
       | some r1 =>
         (match eatPlus isJsSpace r1 with
          | some r2 => (eatLit "if=".toList r2).isSome
          | none => false)
       | none => false)) l

/-- Regex `>\s*\/dev\/` on case-folded input. -/
def dangerDevRedirect (l : List Char) : Bool :=
  scan (fun _ suf =>
    match eatLit ">".toList suf with
    | some r => (eatLit "/dev/".toList (r.dropWhile isJsSpace)).isSome
    | none => false) l

/-- Regex `\bW\b.*\|\s*(ba)?sh` for W = curl or wget, case-folded input. -/
def dangerPipeSh (w : String) (l : List Char) : Bool :=
  scan (fun prev suf =>
    wordBoundaryBefore prev &&
      (match eatLit w.toList suf with
       | some r =>
         boundaryAfter r &&
           dotStarThen (fun t =>
             match eatLit "|".toList t with
             | some u =>
               let v := u.dropWhile isJsSpace
               (eatLit "bash".toList v).isSome || (eatLit "sh".toList v).isSome
             | none => false) r
       | none => false)) l

/-- Regex `\bnpm\s+(install|i)\s+-g` on case-folded input. -/
def dangerNpmGlobal (l : List Char) : Bool :=
  scan (fun prev suf =>
    wordBoundaryBefore prev &&
      (match eatLit "npm".toList suf with
       | some r1 =>
         (match eatPlus isJsSpace r1 with
          | some r2 =>
            (match eatLit "install".toList r2 with
             | some r3 =>
               (match eatPlus isJsSpace r3 with
                | some r4 => (eatLit "-g".toList r4).isSome
                | none => false)
             | none => false) ||
            (match eatLit "i".toList r2 with
             | some r3 =>
               (match eatPlus isJsSpace r3 with
                | some r4 => (eatLit "-g".toList r4).isSome
                | none => false)
             | none => false)
          | none => false)
       | none => false)) l

/-- Regex `\bpip\s+install\b` on case-folded input. -/
def dangerPipInstall (l : List Char) : Bool :=
  scan (fun prev suf =>
    wordBoundaryBefore prev &&
      (match eatLit "pip".toList suf with
       | some r1 =>
         (match eatPlus isJsSpace r1 with
          | some r2 =>
            (match eatLit "install".toList r2 with
             | some r3 => boundaryAfter r3
             | none => false)
          | none => false)
       | none => false)) l

/-- Regex `\bpkg\s+(install|remove)` on case-folded input. -/
def dangerPkg (l : List Char) : Bool :=
  scan (fun prev suf =>
    wordBoundaryBefore prev &&
      (match eatLit "pkg".toList suf with
       | some r1 =>
         (match eatPlus isJsSpace r1 with
          | some r2 =>
            (eatLit "install".toList r2).isSome || (eatLit "remove".toList r2).isSome
          | none => false)
       | none => false)) l

/-- DANGEROUS_PATTERNS of src/tools/shell.js, one matcher per regex, all
applied to the case-folded command (every pattern carries the i flag). -/
def DANGEROUS_PATTERNS : List (List Char → Bool) :=
  [dangerRm, hasWord "sudo", hasWord "su", dangerChmod777, hasWord "chown",
   hasWord "mkfs", dangerDdIf, dangerDevRedirect,
   dangerPipeSh "curl", dangerPipeSh "wget",
   dangerNpmGlobal, dangerPipInstall, hasWord "apt", dangerPkg]

/-- `pattern.test(command)` over the dangerous deny-list (the source tests
the original, untrimmed command). -/
def matchesDangerous (command : String) : Bool :=
  DANGEROUS_PATTERNS.any (fun p => p (command.toList.map Char.toLower))

/-- SAFE_COMMANDS of src/tools/shell.js. -/
def SAFE_COMMANDS : List String :=
  ["ls", "cat", "head", "tail", "pwd", "echo", "which", "whoami", "date",
   "cal", "env", "printenv", "uname", "hostname", "df", "du", "free",
   "uptime", "wc", "sort", "uniq", "grep", "find", "tree", "file", "stat",
   "git status", "git log", "git diff", "git branch", "git remote",
   "node --version", "npm --version", "npm list", "python --version",
   "pip list"]

/-- JS `command.trim()` (ASCII whitespace). -/
def jsTrim (s : String) : String :=
  String.mk (((s.toList.dropWhile isJsSpace).reverse.dropWhile isJsSpace).reverse)

/-- The trimmed, lowercased command used for the allow-list check. -/
def trimmedLower (command : String) : String :=
  String.mk ((jsTrim command).toList.map Char.toLower)

/-- Does the trimmed lowercased command start with an allow-list prefix? -/
def startsWithSafeCommand (command : String) : Bool :=
  SAFE_COMMANDS.any (fun safe =>
    (trimmedLower command).startsWith (String.mk (safe.toList.map Char.toLower)))

/-- The `{safe, reason?, requiresConfirmation?}` object returned by
checkCommandSafety. -/
structure SafetyCheck where
  safe : Bool
  reason : Option String := none
  requiresConfirmation : Bool := false
deriving DecidableEq

/-- checkCommandSafety of src/tools/shell.js: deny-list first on the raw
command, then allow-list prefixes on the trimmed lowercased command,
default unsafe. -/
def checkCommandSafety (command : String) : SafetyCheck :=
  if matchesDangerous command then
    { safe := false, reason := some "Command matches a dangerous pattern",
      requiresConfirmation := true }
  else if startsWithSafeCommand command then
    { safe := true }
  else
    { safe := false, reason := some "Unknown command - requires confirmation",
      requiresConfirmation := true }

/-- The plain result object of a tool: only the envelope fields the claims
inspect are modelled; a field that the source leaves undefined is `none`. -/
structure ShellResult where
  success : Option Bool := none
  error : Option String := none
  command : Option String := none
  reason : Option String := none
deriving DecidableEq

/-- Arguments of the run_command tool (cwd and timeout feed only the raw
runner, which is an oracle here). -/
structure ShellArgs where
  command : String
deriving DecidableEq

/-- Execution options: the optional confirmation callback takes the command
and the safety reason; autoApproveReadOnly defaults to true exactly as the
destructuring default in the source, so an absent option and an explicit
true coincide. -/
structure ExecOptions where
  confirmCallback : Option (String → String → Bool) := none
  autoApproveReadOnly : Bool := true

/-- The try/catch around runCommand in execute: a thrown error becomes a
failure result carrying the message. -/
def runWrapped (run : String → Except String ShellResult) (command : String) :
    ShellResult :=
  match run command with
  | Except.ok r => r
  | Except.error msg => { success := some false, error := some msg, command := some command }

/-- The rejection result of a denied confirmation. -/
def rejectedResult (command : String) : ShellResult :=
  { success := some false, error := some "Command was rejected by user",
    command := some command }

/-- The failure result when confirmation is required, no callback exists
and auto-approval is off. -/
def noCallbackResult (command : String) (reason : Option String) : ShellResult :=
  { success := some false,
    error := some "Command requires confirmation but no callback provided",
    command := some command, reason := reason }

/-- execute of src/tools/shell.js, with the raw spawn-based runner passed
in as an oracle. -/
def shellExecute (run : String → Except String ShellResult) (name : String)
    (args : ShellArgs) (opts : ExecOptions) : ShellResult :=
  if name ≠ "run_command" then
    { error := some ("Unknown shell tool: " ++ name) }
  else
    let safety := checkCommandSafety args.command
    if !safety.safe && safety.requiresConfirmation then
      match opts.confirmCallback with
      | some cb =>
        if cb args.command (safety.reason.getD "") then
          runWrapped run args.command
        else
          rejectedResult args.command
      | none =>
        if !opts.autoApproveReadOnly then
          noCallbackResult args.command safety.reason
        else
          runWrapped run args.command
    else
      runWrapped run args.command

/-! ## src/tools/index.js -/

/-- The registered tool names: file.definitions ++ shell.definitions ++
search.definitions ++ git.definitions, in spread order. -/
def registeredToolNames : List String :=
  ["read_file", "write_file", "edit_file", "list_directory", "find_files",
   "delete_file", "rename_file",
   "run_command",
   "grep_search", "find_definition",
   "git_status", "git_diff", "git_log", "git_branch", "git_show"]

/-- executeTool of src/tools/index.js: dispatch to the owning module for a
registered name (the modules' execute functions are abstracted into the
oracle), and return the plain error object for an unknown name.  Being a
total function, it never throws. -/
def executeTool (dispatch : String → String → ExecOptions → ShellResult)
    (name : String) (args : String) (opts : ExecOptions) : ShellResult :=
  if registeredToolNames.contains name then dispatch name args opts
  else { error := some ("Unknown tool: " ++ name) }

/-! ## src/agent/index.js -/

/-- One normalized chunk of a provider stream, as consumed by Agent.chat. -/
inductive Chunk where
  | content (s : String)
  | tool_calls (cs : List ToolCall)
  | done
deriving DecidableEq

/-- One model turn as the stream delivers it: the chunks in order, then
optionally a hard failure thrown out of the generator after them. -/
structure Turn where
  chunks : List Chunk
  streamError : Option String := none

/-- The UI-facing events Agent.chat yields. -/
inductive Event where
  | content (s : String)
  | tool_call (tool : String) (args : String)
  | tool_result (tool : String) (result : String)
  | error (e : String)
  | done
  | max_iterations (msg : String)
deriving DecidableEq

/-- The per-turn accumulation state of the for-await loop over the stream:
accumulated text, the last tool_calls chunk, and the content events
yielded so far. -/
structure StreamAcc where
  text : String
  toolCalls : List ToolCall
  events : List Event
deriving DecidableEq

/-- One step of the for-await loop: content chunks append to the text and
yield a content event, a tool_calls chunk replaces the call list, done is
ignored. -/
def processChunk (acc : StreamAcc) : Chunk → StreamAcc
  | Chunk.content s =>
    { acc with text := acc.text ++ s, events := acc.events ++ [Event.content s] }
  | Chunk.tool_calls cs => { acc with toolCalls := cs }
  | Chunk.done => acc

/-- Folding a whole turn's chunks. -/
def runStream (chunks : List Chunk) : StreamAcc :=
  chunks.foldl processChunk { text := "", toolCalls := [], events := [] }

/-- The filter Agent.chat applies before dispatch:
`tc && tc.name && typeof tc.name === 'string'`. -/
def validCall (tc : ToolCall) : Bool :=
  match tc.name with
  | some s => decide (s ≠ "")
  | none => false

/-- The dispatch loop over the valid calls of one turn: for each call,
yield a tool_call event, execute it (the registry is the oracle `exec`,
yielding the serialized result), append the result to the conversation and
yield a tool_result event.  The try/catch in the source only converts a
thrown error into an error-shaped result, which the oracle already
subsumes. -/
def dispatch (exec : ToolCall → String) :
    List ToolCall → List Msg → List Event × List Msg
  | [], msgs => ([], msgs)
  | tc :: rest, msgs =>
    let r := exec tc
    let next := dispatch exec rest (addToolResult msgs tc.id (tc.name.getD "") r)
    (Event.tool_call (tc.name.getD "") tc.arguments ::
       Event.tool_result (tc.name.getD "") r :: next.1, next.2)

/-- The while loop of Agent.chat.  `maxIter` is the configured ceiling
(for the terminal message), `fuel` the remaining iterations, `turnIdx`
indexes the model oracle.  Returns the yielded events and the final
conversation log. -/
def chatLoop (maxIter : Nat) (oracle : Nat → Turn) (exec : ToolCall → String) :
    Nat → Nat → List Msg → List Event × List Msg
  | 0, _, msgs =>
    ([Event.max_iterations ("Reached maximum iterations (" ++ toString maxIter ++ ")")],
     msgs)
  | fuel + 1, turnIdx, msgs =>
    let t := oracle turnIdx
    let acc := runStream t.chunks
    match t.streamError with
    | some e => (acc.events ++ [Event.error e], msgs)
    | none =>
      let msgs1 := addAssistantMessage msgs (some acc.text) acc.toolCalls
      if acc.toolCalls.isEmpty then (acc.events ++ [Event.done], msgs1)
      else if (acc.toolCalls.filter validCall).isEmpty then
        (acc.events ++ [Event.done], msgs1)
      else
        let d := dispatch exec (acc.toolCalls.filter validCall) msgs1
        let r := chatLoop maxIter oracle exec fuel (turnIdx + 1) d.2
        (acc.events ++ d.1 ++ r.1, r.2)

/-- Agent.chat: append the user message, then run the bounded loop. -/
def chat (maxIter : Nat) (oracle : Nat → Turn) (exec : ToolCall → String)
    (userMsg : String) (msgs : List Msg) : List Event × List Msg :=
  chatLoop maxIter oracle exec maxIter 0
    (addMessage msgs { role := Role.user, content := some userMsg })

/-- Terminal events of the chat sequence. -/
def isTerminal : Event → Bool
  | Event.done => true
  | Event.error _ => true
  | Event.max_iterations _ => true
  | _ => false

/-- Events announcing tool dispatch. -/
def isDispatchEv : Event → Bool
  | Event.tool_call _ _ => true
  | Event.tool_result _ _ => true
  | _ => false

/-- Error events. -/
def isErrorEv : Event → Bool
  | Event.error _ => true
  | _ => false

/-- Count the maximal runs of dispatch events in an event list; the flag
records whether the previous event was a dispatch event. -/
def roundsAux : Bool → List Event → Nat
  | _, [] => 0
  | prev, e :: rest =>
    if isDispatchEv e then (if prev then 0 else 1) + roundsAux true rest
    else roundsAux false rest

/-- The number of tool-dispatch rounds an event sequence shows: each model
turn that dispatched tools contributes one contiguous block of
tool_call/tool_result events. -/
def dispatchRounds (evs : List Event) : Nat := roundsAux false evs

/-- A model turn that streams cleanly and requests at least one
well-formed tool call, i.e. the model does not stop. -/
def turnForcesTools (t : Turn) : Prop :=
  t.streamError = none ∧ (runStream t.chunks).toolCalls.filter validCall ≠ []

instance (t : Turn) : Decidable (turnForcesTools t) := by
  unfold turnForcesTools; infer_instance

/-! ## Concrete instances used by the claim theorems -/

/-- A user message large enough that many of them overflow the token
budget (170 characters estimate to 43 tokens). -/
def c1BigUser : Msg :=
  { role := Role.user, content := some (String.mk (List.replicate 170 'a')) }

/-- An assistant message declaring one tool call. -/
def c1Assistant : Msg :=
  { role := Role.assistant, content := none,
    tool_calls := [{ id := "call_1", name := some "run_command", arguments := "" }] }

/-- The matching tool result of c1Assistant's call. -/
def c1ToolMsg : Msg :=
  { role := Role.tool, content := some "ok", tool_call_id := some "call_1",
    name := some "run_command" }

def c1SmallUser : Msg := { role := Role.user, content := some "u" }

/-- A conversation over the token budget whose last six non-system
messages start with the tool result of a call declared one message
earlier: the last-resort fallback cuts between the pair. -/
def c1State : List Msg :=
  { role := Role.system, content := some "sys" } ::
    (List.replicate 200 c1BigUser ++
      (c1Assistant :: c1ToolMsg :: List.replicate 5 c1SmallUser))

/-- Does a view contain a tool message whose tool_call_id no assistant
message of the view declares? -/
def viewHasOrphanToolMsg (view : List Msg) : Bool :=
  view.any (fun m => decide (m.role = Role.tool) &&
    !(view.any (fun a => decide (a.role = Role.assistant) &&
        a.tool_calls.any (fun tc => decide (some tc.id = m.tool_call_id)))))

/-- A model turn requesting one well-formed tool call on every round. -/
def c3Turn : Turn :=
  { chunks :=
      [Chunk.tool_calls [{ id := "t1", name := some "run_command", arguments := "" }]] }

/-- A model turn that streams some content and then fails hard. -/
def c5Turn : Turn :=
  { chunks := [Chunk.content "partial"], streamError := some "boom" }

/-- A model turn whose tool calls all have a missing or empty name. -/
def c6Turn : Turn :=
  { chunks := [Chunk.tool_calls
      [{ id := "x1", name := none, arguments := "" },
       { id := "x2", name := some "", arguments := "" }]] }

def c2Call : ToolCall := { id := "c2", name := some "run_command", arguments := "" }

/-- The store after addAssistantMessage with text "hi" and one tool call. -/
def c2State : List Msg := addAssistantMessage [] (some "hi") [c2Call]

def c2wCall : ToolCall := { id := "c2w", name := some "run_command", arguments := "" }

/-- The store holding one assistant message with null content and a call. -/
def c2wState : List Msg := [mkAssistantMsg none [c2wCall]]

/-- A log already at the MAX_HISTORY_MESSAGES cap (no system message). -/
def c4Base : List Msg :=
  (List.range 100).map (fun i => { role := Role.user, content := some (toString i) })

def c4New : Msg := { role := Role.user, content := some "new" }

def c4Sys : Msg := { role := Role.system, content := some "sys" }

end TermAgent

namespace TermAgent

/-! ## Helper lemmas -/

/-- Both unsafe branches of checkCommandSafety set requiresConfirmation. -/
theorem unsafe_requires_confirmation (cmd : String)
    (h : (checkCommandSafety cmd).safe = false) :
    (checkCommandSafety cmd).requiresConfirmation = true := by
  unfold checkCommandSafety at h ⊢
  by_cases h1 : matchesDangerous cmd = true
  · simp [h1]
  · by_cases h2 : startsWithSafeCommand cmd = true
    · simp [h1, h2] at h
    · simp [h1, h2]

/-- Folding chunks only ever appends content events. -/
theorem processChunk_events_content (acc : StreamAcc) (c : Chunk)
    (h : ∀ e ∈ acc.events, ∃ s, e = Event.content s) :
    ∀ e ∈ (processChunk acc c).events, ∃ s, e = Event.content s := by
  cases c with
  | content s =>
    intro e he
    simp only [processChunk, List.mem_append, List.mem_singleton] at he
    rcases he with he | rfl
    · exact h e he
    · exact ⟨s, rfl⟩
  | tool_calls cs => exact h
  | done => exact h

/-- Every event a stream fold yields is a content event. -/
theorem runStream_events_content (chunks : List Chunk) :
    ∀ e ∈ (runStream chunks).events, ∃ s, e = Event.content s := by
  have main : ∀ (cs : List Chunk) (acc : StreamAcc),
      (∀ e ∈ acc.events, ∃ s, e = Event.content s) →
      ∀ e ∈ (cs.foldl processChunk acc).events, ∃ s, e = Event.content s := by
    intro cs
    induction cs with
    | nil => intro acc h; exact h
    | cons c rest ih => intro acc h; exact ih _ (processChunk_events_content acc c h)
  refine main chunks _ ?_
  intro e he
  simp at he

theorem runStream_no_dispatch (chunks : List Chunk) :
    ∀ e ∈ (runStream chunks).events, isDispatchEv e = false := by
  intro e he
  rcases runStream_events_content chunks e he with ⟨s, rfl⟩
  rfl

theorem runStream_no_error (chunks : List Chunk) :
    ∀ e ∈ (runStream chunks).events, isErrorEv e = false := by
  intro e he
  rcases runStream_events_content chunks e he with ⟨s, rfl⟩
  rfl

/-- Every event the dispatch loop yields is a dispatch event. -/
theorem dispatch_events_dispatch (exec : ToolCall → String) :
    ∀ (l : List ToolCall) (msgs : List Msg),
      ∀ e ∈ (dispatch exec l msgs).1, isDispatchEv e = true := by
  intro l
  induction l with
  | nil =>
    intro msgs e he
    simp [dispatch] at he
  | cons tc rest ih =>
    intro msgs e he
    simp only [dispatch, List.mem_cons] at he
    rcases he with rfl | rfl | he
    · rfl
    · rfl
    · exact ih _ e he

theorem dispatch_no_error (exec : ToolCall → String) (l : List ToolCall)
    (msgs : List Msg) : ∀ e ∈ (dispatch exec l msgs).1, isErrorEv e = false := by
  intro e he
  have h := dispatch_events_dispatch exec l msgs e he
  cases e <;> simp [isDispatchEv] at h <;> rfl

/-- Every tool_call event the dispatch loop yields names a call that
passed the validity filter, so its name is non-empty. -/
theorem dispatch_toolcall_names (exec : ToolCall → String) :
    ∀ (l : List ToolCall) (msgs : List Msg) (t a : String),
      (∀ tc ∈ l, validCall tc = true) →
      Event.tool_call t a ∈ (dispatch exec l msgs).1 → t ≠ "" := by
  intro l
  induction l with
  | nil =>
    intro msgs t a _ he
    simp [dispatch] at he
  | cons tc rest ih =>
    intro msgs t a hvalid he
    simp only [dispatch, List.mem_cons] at he
    rcases he with he | he | he
    · have hv := hvalid tc (List.mem_cons_self tc rest)
      cases he
      unfold validCall at hv
      cases hname : tc.name with
      | none => rw [hname] at hv; simp at hv
      | some s =>
        rw [hname] at hv
        simp at hv
        simpa [hname] using hv
    · cases he
    · exact ih _ t a (fun x hx => hvalid x (List.mem_cons_of_mem tc hx)) he

/-- The event list of the loop is never empty. -/
theorem chatLoop_events_ne_nil (maxIter : Nat) (oracle : Nat → Turn)
    (exec : ToolCall → String) :
    ∀ (fuel turnIdx : Nat) (msgs : List Msg),
      (chatLoop maxIter oracle exec fuel turnIdx msgs).1 ≠ [] := by
  intro fuel
  induction fuel with
  | zero => intro _ _; simp [chatLoop]
  | succ fuel ih =>
    intro turnIdx msgs
    simp only [chatLoop]
    cases h0 : (oracle turnIdx).streamError with
    | some e => simp
    | none =>
      by_cases h1 : (runStream (oracle turnIdx).chunks).toolCalls.isEmpty = true
      · simp [h1]
      · by_cases h2 :
          ((runStream (oracle turnIdx).chunks).toolCalls.filter validCall).isEmpty = true
        · simp [h1, h2]
        · simp only [h1, h2, if_false, Bool.false_eq_true]
          simp [List.append_eq_nil]
          intro _ _
          exact ih _ _

/-- The loop's last event is always a terminal event. -/
theorem chatLoop_last_terminal (maxIter : Nat) (oracle : Nat → Turn)
    (exec : ToolCall → String) :
    ∀ (fuel turnIdx : Nat) (msgs : List Msg),
      ∃ e, (chatLoop maxIter oracle exec fuel turnIdx msgs).1.getLast? = some e ∧
        isTerminal e = true := by
  intro fuel
  induction fuel with
  | zero =>
    intro _ msgs
    exact ⟨_, rfl, rfl⟩
  | succ fuel ih =>
    intro turnIdx msgs
    simp only [chatLoop]
    cases h0 : (oracle turnIdx).streamError with
    | some e => exact ⟨Event.error e, List.getLast?_concat _, rfl⟩
    | none =>
      by_cases h1 : (runStream (oracle turnIdx).chunks).toolCalls.isEmpty = true
      · simp only [h1, if_true]
        exact ⟨Event.done, List.getLast?_concat _, rfl⟩
      · by_cases h2 :
          ((runStream (oracle turnIdx).chunks).toolCalls.filter validCall).isEmpty = true
        · simp only [h1, h2, Bool.false_eq_true, if_false, if_true]
          exact ⟨Event.done, List.getLast?_concat _, rfl⟩
        · simp only [h1, h2, Bool.false_eq_true, if_false]
          obtain ⟨e, he, ht⟩ := ih (turnIdx + 1)
            (dispatch exec ((runStream (oracle turnIdx).chunks).toolCalls.filter validCall)
              (addAssistantMessage msgs (some (runStream (oracle turnIdx).chunks).text)
                (runStream (oracle turnIdx).chunks).toolCalls)).2
          refine ⟨e, ?_, ht⟩
          rw [List.append_assoc, List.getLast?_append_of_ne_nil _ ?_,
            List.getLast?_append_of_ne_nil _ ?_, he]
          · exact chatLoop_events_ne_nil maxIter oracle exec fuel _ _
          · intro hnil
            rcases List.append_eq_nil.mp hnil with ⟨_, h⟩
            exact chatLoop_events_ne_nil maxIter oracle exec fuel _ _ h

theorem roundsAux_true_le (l : List Event) : roundsAux true l ≤ roundsAux false l := by
  induction l with
  | nil => exact Nat.le_refl 0
  | cons e rest ih =>
    by_cases h : isDispatchEv e = true
    · simp [roundsAux, h]
    · simp only [roundsAux, h, Bool.false_eq_true, if_false]
      exact Nat.le_refl _

/-- A prefix of non-dispatch events never increases the round count. -/
theorem roundsAux_nondispatch_prefix :
    ∀ (a : List Event) (p : Bool) (r : List Event),
      (∀ e ∈ a, isDispatchEv e = false) →
      roundsAux p (a ++ r) ≤ roundsAux false r := by
  intro a
  induction a with
  | nil =>
    intro p r _
    cases p
    · exact Nat.le_refl _
    · exact roundsAux_true_le r
  | cons e t ih =>
    intro p r h
    have he := h e (List.mem_cons_self e t)
    simp only [List.cons_append, roundsAux, he, Bool.false_eq_true, if_false]
    exact ih false r (fun x hx => h x (List.mem_cons_of_mem e hx))

theorem roundsAux_true_dispatch_prefix :
    ∀ (d r : List Event), (∀ e ∈ d, isDispatchEv e = true) →
      roundsAux true (d ++ r) = roundsAux true r := by
  intro d
  induction d with
  | nil => intro r _; rfl
  | cons e t ih =>
    intro r h
    have he := h e (List.mem_cons_self e t)
    simp only [List.cons_append, roundsAux, he, if_true, Nat.zero_add, List.append_eq]
    exact ih r (fun x hx => h x (List.mem_cons_of_mem e hx))

/-- A prefix of dispatch events contributes at most one round. -/
theorem roundsAux_dispatch_prefix (d r : List Event)
    (h : ∀ e ∈ d, isDispatchEv e = true) :
    roundsAux false (d ++ r) ≤ 1 + roundsAux false r := by
  cases d with
  | nil => exact Nat.le_add_left _ 1
  | cons e t =>
    have he := h e (List.mem_cons_self e t)
    have h1 : roundsAux true (t ++ r) = roundsAux true r :=
      roundsAux_true_dispatch_prefix t r (fun x hx => h x (List.mem_cons_of_mem e hx))
    have h2 := roundsAux_true_le r
    simp only [List.cons_append, roundsAux, he, if_true, Bool.false_eq_true, if_false,
      List.append_eq, h1]
    omega

/-- The loop performs at most `fuel` dispatch rounds. -/
theorem chatLoop_rounds_le (maxIter : Nat) (oracle : Nat → Turn)
    (exec : ToolCall → String) :
    ∀ (fuel turnIdx : Nat) (msgs : List Msg),
      dispatchRounds (chatLoop maxIter oracle exec fuel turnIdx msgs).1 ≤ fuel := by
  intro fuel
  induction fuel with
  | zero =>
    intro _ _
    exact Nat.le_refl 0
  | succ fuel ih =>
    intro turnIdx msgs
    simp only [chatLoop]
    cases h0 : (oracle turnIdx).streamError with
    | some e =>
      have h := roundsAux_nondispatch_prefix (runStream (oracle turnIdx).chunks).events
        false [Event.error e] (runStream_no_dispatch _)
      calc dispatchRounds ((runStream (oracle turnIdx).chunks).events ++ [Event.error e])
          ≤ roundsAux false [Event.error e] := h
        _ = 0 := rfl
        _ ≤ fuel + 1 := Nat.zero_le _
    | none =>
      by_cases h1 : (runStream (oracle turnIdx).chunks).toolCalls.isEmpty = true
      · simp only [h1, if_true]
        have h := roundsAux_nondispatch_prefix (runStream (oracle turnIdx).chunks).events
          false [Event.done] (runStream_no_dispatch _)
        calc dispatchRounds ((runStream (oracle turnIdx).chunks).events ++ [Event.done])
            ≤ roundsAux false [Event.done] := h
          _ = 0 := rfl
          _ ≤ fuel + 1 := Nat.zero_le _
      · by_cases h2 :
          ((runStream (oracle turnIdx).chunks).toolCalls.filter validCall).isEmpty = true
        · simp only [h1, h2, Bool.false_eq_true, if_false, if_true]
          have h := roundsAux_nondispatch_prefix (runStream (oracle turnIdx).chunks).events
            false [Event.done] (runStream_no_dispatch _)
          calc dispatchRounds ((runStream (oracle turnIdx).chunks).events ++ [Event.done])
              ≤ roundsAux false [Event.done] := h
            _ = 0 := rfl
            _ ≤ fuel + 1 := Nat.zero_le _
        · simp only [h1, h2, Bool.false_eq_true, if_false]
          have hd := dispatch_events_dispatch exec
            ((runStream (oracle turnIdx).chunks).toolCalls.filter validCall)
            (addAssistantMessage msgs (some (runStream (oracle turnIdx).chunks).text)
              (runStream (oracle turnIdx).chunks).toolCalls)
          have hrec := ih (turnIdx + 1)
            (dispatch exec ((runStream (oracle turnIdx).chunks).toolCalls.filter validCall)
              (addAssistantMessage msgs (some (runStream (oracle turnIdx).chunks).text)
                (runStream (oracle turnIdx).chunks).toolCalls)).2
          rw [List.append_assoc]
          calc dispatchRounds ((runStream (oracle turnIdx).chunks).events ++ _)
              ≤ roundsAux false _ :=
                roundsAux_nondispatch_prefix _ false _ (runStream_no_dispatch _)
            _ ≤ 1 + roundsAux false _ := roundsAux_dispatch_prefix _ _ hd
            _ ≤ 1 + fuel := by
                have h3 := hrec
                unfold dispatchRounds at h3
                omega
            _ = fuel + 1 := Nat.add_comm 1 fuel

/-- Absent stream failures, the loop yields no error event. -/
theorem chatLoop_no_error (maxIter : Nat) (oracle : Nat → Turn)
    (exec : ToolCall → String) (hok : ∀ i, (oracle i).streamError = none) :
    ∀ (fuel turnIdx : Nat) (msgs : List Msg),
      (chatLoop maxIter oracle exec fuel turnIdx msgs).1.filter isErrorEv = [] := by
  intro fuel
  induction fuel with
  | zero => intro _ _; rfl
  | succ fuel ih =>
    intro turnIdx msgs
    simp only [chatLoop, hok turnIdx]
    have hacc : (runStream (oracle turnIdx).chunks).events.filter isErrorEv = [] :=
      List.filter_eq_nil_iff.mpr
        (fun e he => by simp [runStream_no_error (oracle turnIdx).chunks e he])
    by_cases h1 : (runStream (oracle turnIdx).chunks).toolCalls.isEmpty = true
    · simp [h1, List.filter_append, hacc, isErrorEv]
    · by_cases h2 :
        ((runStream (oracle turnIdx).chunks).toolCalls.filter validCall).isEmpty = true
      · simp [h1, h2, List.filter_append, hacc, isErrorEv]
      · simp only [h1, h2, Bool.false_eq_true, if_false]
        rw [List.append_assoc, List.filter_append, List.filter_append, hacc, ih]
        have hdnil : (dispatch exec
            ((runStream (oracle turnIdx).chunks).toolCalls.filter validCall)
            (addAssistantMessage msgs (some (runStream (oracle turnIdx).chunks).text)
              (runStream (oracle turnIdx).chunks).toolCalls)).1.filter isErrorEv = [] :=
          List.filter_eq_nil_iff.mpr (fun e he => by
            simp [dispatch_no_error exec _ _ e he])
        rw [hdnil]
        rfl

/-- When every model turn keeps requesting valid tool calls, the loop
ends in the max_iterations event. -/
theorem chatLoop_forces_max (maxIter : Nat) (oracle : Nat → Turn)
    (exec : ToolCall → String) (hforce : ∀ i, turnForcesTools (oracle i)) :
    ∀ (fuel turnIdx : Nat) (msgs : List Msg),
      (chatLoop maxIter oracle exec fuel turnIdx msgs).1.getLast? =
        some (Event.max_iterations
          ("Reached maximum iterations (" ++ toString maxIter ++ ")")) := by
  intro fuel
  induction fuel with
  | zero => intro _ _; rfl
  | succ fuel ih =>
    intro turnIdx msgs
    obtain ⟨hnone, hvalid⟩ := hforce turnIdx
    have hne : (runStream (oracle turnIdx).chunks).toolCalls ≠ [] := by
      intro hc
      apply hvalid
      rw [hc]
      rfl
    have h1 : (runStream (oracle turnIdx).chunks).toolCalls.isEmpty = false := by
      cases hL : (runStream (oracle turnIdx).chunks).toolCalls with
      | nil => exact absurd hL hne
      | cons a t => rfl
    have h2 : ((runStream (oracle turnIdx).chunks).toolCalls.filter validCall).isEmpty
        = false := by
      cases hL : (runStream (oracle turnIdx).chunks).toolCalls.filter validCall with
      | nil => exact absurd hL hvalid
      | cons a t => rfl
    simp only [chatLoop, hnone, h1, h2, Bool.false_eq_true, if_false]
    rw [List.append_assoc, List.getLast?_append_of_ne_nil _ ?_,
      List.getLast?_append_of_ne_nil _ ?_]
    · exact ih (turnIdx + 1) _
    · exact chatLoop_events_ne_nil maxIter oracle exec fuel _ _
    · intro hnil
      rcases List.append_eq_nil.mp hnil with ⟨_, h⟩
      exact chatLoop_events_ne_nil maxIter oracle exec fuel _ _ h

/-- Every tool_call event the loop yields carries a non-empty tool name:
only calls surviving the validity filter reach dispatch. -/
theorem chatLoop_toolcall_names (maxIter : Nat) (oracle : Nat → Turn)
    (exec : ToolCall → String) :
    ∀ (fuel turnIdx : Nat) (msgs : List Msg) (t a : String),
      Event.tool_call t a ∈ (chatLoop maxIter oracle exec fuel turnIdx msgs).1 →
      t ≠ "" := by
  intro fuel
  induction fuel with
  | zero =>
    intro _ _ t a he
    simp [chatLoop] at he
  | succ fuel ih =>
    intro turnIdx msgs t a he
    simp only [chatLoop] at he
    have hcontent : Event.tool_call t a ∈ (runStream (oracle turnIdx).chunks).events →
        t ≠ "" := by
      intro hmem
      rcases runStream_events_content (oracle turnIdx).chunks _ hmem with ⟨s, hs⟩
      cases hs
    cases h0 : (oracle turnIdx).streamError with
    | some e =>
      rw [h0] at he
      simp only [List.mem_append, List.mem_singleton] at he
      rcases he with he | he
      · exact hcontent he
      · cases he
    | none =>
      rw [h0] at he
      by_cases h1 : (runStream (oracle turnIdx).chunks).toolCalls.isEmpty = true
      · simp only [h1, if_true, List.mem_append, List.mem_singleton] at he
        rcases he with he | he
        · exact hcontent he
        · cases he
      · by_cases h2 :
          ((runStream (oracle turnIdx).chunks).toolCalls.filter validCall).isEmpty = true
        · simp only [h1, h2, Bool.false_eq_true, if_false, if_true, List.mem_append,
            List.mem_singleton] at he
          rcases he with he | he
          · exact hcontent he
          · cases he
        · simp only [h1, h2, Bool.false_eq_true, if_false, List.mem_append] at he
          rcases he with (he | he) | he
          · exact hcontent he
          · refine dispatch_toolcall_names exec _ _ t a ?_ he
            intro tc htc
            exact List.of_mem_filter htc
          · exact ih _ _ t a he

theorem takeLast_subset (l : List α) (n : Nat) : takeLast l n ⊆ l := by
  unfold takeLast
  exact List.drop_subset _ _

theorem pruneToolMsgs_subset (formatted : List Msg) :
    pruneToolMsgs formatted ⊆ formatted := by
  unfold pruneToolMsgs
  split
  · intro x hx
    exact List.mem_of_mem_filter hx
  · intro x hx
    exact hx

/-- Every message of a getMessages view is the formatted image of a
stored message, possibly with its tool content truncated. -/
theorem mem_getMessages_src (msgs : List Msg) (m : Msg) (hm : m ∈ getMessages msgs) :
    ∃ m0 ∈ msgs, m = formatMsg m0 ∨ m = truncateToolMsg (formatMsg m0) := by
  simp only [getMessages] at hm
  split at hm
  · rcases List.mem_map.mp hm with ⟨m0, h0, rfl⟩
    exact ⟨m0, h0, Or.inl rfl⟩
  · have fromPruned :
        ∀ x, x ∈ (pruneToolMsgs (msgs.map formatMsg)).map truncateToolMsg →
          ∃ m0 ∈ msgs, x = formatMsg m0 ∨ x = truncateToolMsg (formatMsg m0) := by
      intro x hx
      rcases List.mem_map.mp hx with ⟨f, hf, rfl⟩
      have hf2 : f ∈ msgs.map formatMsg := pruneToolMsgs_subset _ hf
      rcases List.mem_map.mp hf2 with ⟨m0, h0, rfl⟩
      exact ⟨m0, h0, Or.inr rfl⟩
    split at hm
    · rcases List.mem_append.mp hm with hleft | hright
      · cases hfind : (msgs.map formatMsg).find? (fun x => decide (x.role = Role.system)) with
        | none =>
          rw [hfind] at hleft
          simp at hleft
        | some s =>
          rw [hfind] at hleft
          simp only [List.mem_singleton] at hleft
          subst hleft
          have hs : m ∈ msgs.map formatMsg := List.mem_of_find?_eq_some hfind
          rcases List.mem_map.mp hs with ⟨m0, h0, rfl⟩
          exact ⟨m0, h0, Or.inl rfl⟩
      · have h1 := takeLast_subset _ KEEP_RECENT_MESSAGES hright
        have h2 := List.mem_of_mem_filter h1
        exact fromPruned m h2
    · exact fromPruned m hm

/-- The formatted image of a stored message has null content only when the
source is an assistant message with a non-empty tool-call list. -/
theorem formatMsg_null_content (x : Msg) (hx : (formatMsg x).content = none) :
    (formatMsg x).role = Role.assistant ∧ (formatMsg x).tool_calls ≠ [] := by
  unfold formatMsg at hx ⊢
  by_cases hc : x.role = Role.assistant ∧ x.tool_calls ≠ []
  · exact ⟨hc.1, hc.2⟩
  · simp only [if_neg hc] at hx
    cases hx

set_option maxRecDepth 100000 in
/-- C1: the code_bug evidence.  The spec demands that the budgeted view
never contain a tool message with no matching assistant tool call, the
last-resort fallback extending backward to a pair boundary; on c1State the
fallback instead cuts straight through the pair and emits an orphaned tool
message. -/
theorem c1_fallback_orphans_tool_result :
    viewHasOrphanToolMsg (getMessages c1State) = true := by decide

/-- C2 counterexample: addAssistantMessage with the text "hi" and one
tool call stores (and getMessages emits) an assistant message whose
tool-call list is non-empty yet whose content is not null, refuting
"content is null iff the tool-call list is non-empty". -/
theorem c2_content_with_tool_calls_not_null :
    (getMessages c2State).any
      (fun m => !m.tool_calls.isEmpty && m.content.isSome) = true := by decide

/-- C2 amended: in every produced view, null content occurs only on an
assistant message with a non-empty tool-call list; and a stored assistant
message has null content exactly when its tool-call list is non-empty and
its text content is empty or null. -/
theorem c2_null_content_exclusivity (msgs : List Msg) (m : Msg)
    (hm : m ∈ getMessages msgs) :
    (m.content = none → m.role = Role.assistant ∧ m.tool_calls ≠ []) ∧
    (∀ (c : Option String) (tcs : List ToolCall),
       (mkAssistantMsg c tcs).content = none ↔
         tcs ≠ [] ∧ (c = none ∨ c = some "")) := by
  constructor
  · intro hnull
    obtain ⟨m0, _, hcase⟩ := mem_getMessages_src msgs m hm
    rcases hcase with rfl | rfl
    · exact formatMsg_null_content m0 hnull
    · cases hfc : (formatMsg m0).content with
      | none =>
        have heq : truncateToolMsg (formatMsg m0) = formatMsg m0 := by
          unfold truncateToolMsg
          rw [hfc]
        rw [heq] at hnull ⊢
        exact formatMsg_null_content m0 hnull
      | some s =>
        by_cases hcond : (formatMsg m0).role = Role.tool ∧ s ≠ "" ∧
            s.length > TRUNCATE_TOOL_RESULTS
        · have heq : truncateToolMsg (formatMsg m0) =
              { formatMsg m0 with
                content := some (s.take TRUNCATE_TOOL_RESULTS ++ "\n...[truncated]") } := by
            unfold truncateToolMsg
            rw [hfc]
            simp [hcond]
          rw [heq] at hnull
          cases hnull
        · have heq : truncateToolMsg (formatMsg m0) = formatMsg m0 := by
            unfold truncateToolMsg
            rw [hfc]
            simp [hcond]
          rw [heq] at hnull ⊢
          exact formatMsg_null_content m0 hnull
  · intro c tcs
    cases tcs with
    | nil => simp [mkAssistantMsg]
    | cons tc rest =>
      cases c with
      | none => simp [mkAssistantMsg, jsOrNull]
      | some s =>
        by_cases hs : s = ""
        · subst hs
          simp [mkAssistantMsg, jsOrNull]
        · simp [mkAssistantMsg, jsOrNull, hs]

/-- C2 amended witness: the view of a store holding one assistant message
with null content and one tool call. -/
theorem c2_null_content_exclusivity_witness :
    formatMsg (mkAssistantMsg none [c2wCall]) ∈ getMessages c2wState ∧
    (((formatMsg (mkAssistantMsg none [c2wCall])).content = none →
        (formatMsg (mkAssistantMsg none [c2wCall])).role = Role.assistant ∧
        (formatMsg (mkAssistantMsg none [c2wCall])).tool_calls ≠ []) ∧
     (∀ (c : Option String) (tcs : List ToolCall),
        (mkAssistantMsg c tcs).content = none ↔
          tcs ≠ [] ∧ (c = none ∨ c = some ""))) :=
  ⟨by decide, c2_null_content_exclusivity c2wState _ (by decide)⟩

set_option maxRecDepth 10000 in
/-- C4 counterexample: on a log already holding 100 messages, addMessage
does not merely append — it also drops the oldest message — refuting the
unconditional append-only claim. -/
theorem c4_addMessage_not_append_only :
    addMessage c4Base c4New ≠ c4Base ++ [c4New] := by decide

/-- C4 amended: addAssistantMessage always appends, unconditionally;
addMessage (and with it addToolResult, which is addMessage on the tool
message) appends exactly while the log stays within the 100-message cap;
past the cap, addMessage trims to the first system message of the pushed
log plus the most recent 99 messages when a system message exists, and to
the most recent 100 messages when none does; clear resets the log to
exactly its first system message when one exists and to the empty log
otherwise. -/
theorem c4_append_behaviour (msgs : List Msg) (m : Msg) (c : Option String)
    (tcs : List ToolCall) (tcid tname result : String) :
    addAssistantMessage msgs c tcs = msgs ++ [mkAssistantMsg c tcs] ∧
    (msgs.length < MAX_HISTORY_MESSAGES → addMessage msgs m = msgs ++ [m]) ∧
    (msgs.length < MAX_HISTORY_MESSAGES →
       addToolResult msgs tcid tname result =
         msgs ++ [{ role := Role.tool, content := some result,
                    tool_call_id := some tcid, name := some tname }]) ∧
    (∀ sys : Msg, msgs.find? (fun x => decide (x.role = Role.system)) = some sys →
       clear msgs = [sys]) ∧
    (msgs.find? (fun x => decide (x.role = Role.system)) = none →
       clear msgs = []) ∧
    (MAX_HISTORY_MESSAGES < (msgs ++ [m]).length →
       (∀ sys : Msg,
          (msgs ++ [m]).find? (fun y => decide (y.role = Role.system)) = some sys →
          addMessage msgs m =
            sys :: takeLast (msgs ++ [m]) (MAX_HISTORY_MESSAGES - 1)) ∧
       ((msgs ++ [m]).find? (fun y => decide (y.role = Role.system)) = none →
          addMessage msgs m = takeLast (msgs ++ [m]) MAX_HISTORY_MESSAGES)) := by
  have happend : ∀ y : Msg, msgs.length < MAX_HISTORY_MESSAGES →
      addMessage msgs y = msgs ++ [y] := by
    intro y hlen
    have hc : ¬ ((msgs ++ [y]).length > MAX_HISTORY_MESSAGES) := by
      rw [List.length_append]
      simp only [List.length_singleton]
      omega
    simp only [addMessage]
    rw [if_neg hc]
  refine ⟨rfl, happend m, fun hlen => happend _ hlen, ?_, ?_, ?_⟩
  · intro sys hsys
    unfold clear
    rw [hsys]
  · intro hnone
    unfold clear
    rw [hnone]
  · intro hbig
    constructor
    · intro sys hsys
      simp only [addMessage]
      rw [if_pos hbig, hsys]
    · intro hnone
      simp only [addMessage]
      rw [if_pos hbig, hnone]

set_option maxRecDepth 10000 in
/-- C4 amended witness: concrete consequences at a one-message log
(appends, clear with a system message) and at the 100-message cap
(clear without a system message; the trim both without a system message
and with one). -/
theorem c4_append_behaviour_witness :
    addAssistantMessage [c4Sys] (some "hi") [] =
      [c4Sys] ++ [mkAssistantMsg (some "hi") []] ∧
    addMessage [c4Sys] c4New = [c4Sys] ++ [c4New] ∧
    addToolResult [c4Sys] "id_1" "run_command" "res" =
      [c4Sys] ++ [{ role := Role.tool, content := some "res",
                    tool_call_id := some "id_1", name := some "run_command" }] ∧
    clear [c4Sys] = [c4Sys] ∧
    clear c4Base = [] ∧
    addMessage c4Base c4New = takeLast (c4Base ++ [c4New]) MAX_HISTORY_MESSAGES ∧
    addMessage (c4Sys :: c4Base) c4New =
      c4Sys :: takeLast ((c4Sys :: c4Base) ++ [c4New]) (MAX_HISTORY_MESSAGES - 1) :=
  ⟨(c4_append_behaviour [c4Sys] c4New (some "hi") [] "id_1" "run_command" "res").1,
   (c4_append_behaviour [c4Sys] c4New (some "hi") [] "id_1" "run_command"
      "res").2.1 (by decide),
   (c4_append_behaviour [c4Sys] c4New (some "hi") [] "id_1" "run_command"
      "res").2.2.1 (by decide),
   (c4_append_behaviour [c4Sys] c4New (some "hi") [] "id_1" "run_command"
      "res").2.2.2.1 c4Sys (by decide),
   (c4_append_behaviour c4Base c4New (some "hi") [] "id_1" "run_command"
      "res").2.2.2.2.1 (by decide),
   ((c4_append_behaviour c4Base c4New (some "hi") [] "id_1" "run_command"
      "res").2.2.2.2.2 (by decide)).2 (by decide),
   ((c4_append_behaviour (c4Sys :: c4Base) c4New (some "hi") [] "id_1" "run_command"
      "res").2.2.2.2.2 (by decide)).1 c4Sys (by decide)⟩

/-- C9: checkCommandSafety classifies a command safe exactly when it
matches no dangerous deny-list pattern and its trimmed lowercased form
starts with an allow-list prefix; a dangerous match wins over an
allow-list prefix and a command matching neither list is unsafe. -/
theorem c9_safety_classification (cmd : String) :
    (checkCommandSafety cmd).safe =
      (!matchesDangerous cmd && startsWithSafeCommand cmd) := by
  unfold checkCommandSafety
  cases h1 : matchesDangerous cmd <;> cases h2 : startsWithSafeCommand cmd <;>
    simp [h1, h2]

/-- C8: executeTool on an unregistered name returns the plain object
with error "Unknown tool: name" (and, being a total function, never
throws). -/
theorem c8_unknown_tool (dispatch : String → String → ExecOptions → ShellResult)
    (name args : String) (opts : ExecOptions)
    (h : registeredToolNames.contains name = false) :
    executeTool dispatch name args opts =
      { error := some ("Unknown tool: " ++ name) } := by
  unfold executeTool
  rw [h]
  simp

/-- C8 witness at the concrete unregistered name "frobnicate". -/
theorem c8_unknown_tool_witness :
    registeredToolNames.contains "frobnicate" = false ∧
    executeTool (fun _ _ _ => {}) "frobnicate" "" {} =
      { error := some ("Unknown tool: " ++ "frobnicate") } :=
  ⟨by decide, c8_unknown_tool (fun _ _ _ => {}) "frobnicate" "" {} (by decide)⟩

/-- C10: with an unsafe command and no confirmation callback, execute runs
the command anyway when autoApproveReadOnly is (or defaults to) true, and
returns the no-callback failure object exactly when autoApproveReadOnly is
explicitly false. -/
theorem c10_missing_callback_policy (run : String → Except String ShellResult)
    (args : ShellArgs) (opts : ExecOptions)
    (hnosafe : (checkCommandSafety args.command).safe = false)
    (hnocb : opts.confirmCallback = none) :
    (opts.autoApproveReadOnly = true →
       shellExecute run "run_command" args opts = runWrapped run args.command) ∧
    (opts.autoApproveReadOnly = false →
       shellExecute run "run_command" args opts =
         noCallbackResult args.command (checkCommandSafety args.command).reason) := by
  have hreq := unsafe_requires_confirmation args.command hnosafe
  constructor <;> intro hauto <;>
    simp [shellExecute, hnocb, hnosafe, hreq, hauto]

/-- C10 witness: the unsafe command "sudo reboot", no callback, default
options (autoApproveReadOnly true). -/
theorem c10_missing_callback_policy_witness :
    (checkCommandSafety "sudo reboot").safe = false ∧
    (({} : ExecOptions).autoApproveReadOnly = true →
       shellExecute (fun c => Except.ok { success := some true, command := some c })
         "run_command" { command := "sudo reboot" } {} =
         runWrapped (fun c => Except.ok { success := some true, command := some c })
           "sudo reboot") ∧
    (({} : ExecOptions).autoApproveReadOnly = false →
       shellExecute (fun c => Except.ok { success := some true, command := some c })
         "run_command" { command := "sudo reboot" } {} =
         noCallbackResult "sudo reboot" (checkCommandSafety "sudo reboot").reason) :=
  ⟨by decide,
   c10_missing_callback_policy
     (fun c => Except.ok { success := some true, command := some c })
     { command := "sudo reboot" } {} (by decide) rfl⟩

/-- C3: for every input message and model behaviour, chat emits a finite
event list with at most maxIterations tool-dispatch rounds, ending in a
terminal event; when the model requests valid tool calls on every turn
the last event is max_iterations, a constructor distinct from done and
error. -/
theorem c3_chat_bounded_termination (maxIter : Nat) (oracle : Nat → Turn)
    (exec : ToolCall → String) (userMsg : String) (msgs : List Msg) :
    dispatchRounds (chat maxIter oracle exec userMsg msgs).1 ≤ maxIter ∧
    (∃ e, (chat maxIter oracle exec userMsg msgs).1.getLast? = some e ∧
       isTerminal e = true) ∧
    ((∀ i, turnForcesTools (oracle i)) →
       (chat maxIter oracle exec userMsg msgs).1.getLast? =
         some (Event.max_iterations
           ("Reached maximum iterations (" ++ toString maxIter ++ ")"))) ∧
    (∀ s e, Event.max_iterations s ≠ Event.done ∧
       Event.max_iterations s ≠ Event.error e) := by
  unfold chat
  exact ⟨chatLoop_rounds_le _ _ _ _ _ _, chatLoop_last_terminal _ _ _ _ _ _,
    fun hforce => chatLoop_forces_max _ _ _ hforce _ _ _,
    fun s e => ⟨by simp, by simp⟩⟩

/-- C3 witness: ceiling 1, a model that requests a tool call every turn. -/
theorem c3_chat_bounded_termination_witness :
    (∀ i : Nat, turnForcesTools ((fun _ => c3Turn) i)) ∧
    (dispatchRounds (chat 1 (fun _ => c3Turn) (fun _ => "r") "hi" []).1 ≤ 1 ∧
     (∃ e, (chat 1 (fun _ => c3Turn) (fun _ => "r") "hi" []).1.getLast? = some e ∧
        isTerminal e = true) ∧
     ((∀ i : Nat, turnForcesTools ((fun _ => c3Turn) i)) →
        (chat 1 (fun _ => c3Turn) (fun _ => "r") "hi" []).1.getLast? =
          some (Event.max_iterations
            ("Reached maximum iterations (" ++ toString 1 ++ ")"))) ∧
     (∀ s e, Event.max_iterations s ≠ Event.done ∧
        Event.max_iterations s ≠ Event.error e)) :=
  ⟨fun _ => (by decide : turnForcesTools c3Turn),
   c3_chat_bounded_termination 1 (fun _ => c3Turn) (fun _ => "r") "hi" []⟩

/-- C5: a hard stream failure mid-turn ends the loop at once with the
content so far plus exactly one error event, and leaves the stored log as
it was (no partial assistant message is appended, no retry happens). -/
theorem c5_stream_error_single_error (maxIter : Nat) (oracle : Nat → Turn)
    (exec : ToolCall → String) (fuel turnIdx : Nat) (msgs : List Msg) (e : String)
    (hfuel : 0 < fuel)
    (herr : (oracle turnIdx).streamError = some e) :
    chatLoop maxIter oracle exec fuel turnIdx msgs =
      ((runStream (oracle turnIdx).chunks).events ++ [Event.error e], msgs) ∧
    (chatLoop maxIter oracle exec fuel turnIdx msgs).1.filter isErrorEv =
      [Event.error e] ∧
    (chatLoop maxIter oracle exec fuel turnIdx msgs).1.getLast? =
      some (Event.error e) := by
  obtain ⟨f, rfl⟩ : ∃ f, fuel = f + 1 := ⟨fuel - 1, by omega⟩
  have hmain : chatLoop maxIter oracle exec (f + 1) turnIdx msgs =
      ((runStream (oracle turnIdx).chunks).events ++ [Event.error e], msgs) := by
    simp only [chatLoop, herr]
  refine ⟨hmain, ?_, ?_⟩
  · rw [hmain]
    rw [List.filter_append,
      List.filter_eq_nil_iff.mpr
        (fun x hx => by simp [runStream_no_error (oracle turnIdx).chunks x hx])]
    rfl
  · rw [hmain]
    exact List.getLast?_concat _

/-- C5 witness: one turn that streams "partial" and then throws "boom". -/
theorem c5_stream_error_single_error_witness :
    0 < 1 ∧ c5Turn.streamError = some "boom" ∧
    (chatLoop 3 (fun _ => c5Turn) (fun _ => "") 1 0 [] =
       ((runStream c5Turn.chunks).events ++ [Event.error "boom"], []) ∧
     (chatLoop 3 (fun _ => c5Turn) (fun _ => "") 1 0 []).1.filter isErrorEv =
       [Event.error "boom"] ∧
     (chatLoop 3 (fun _ => c5Turn) (fun _ => "") 1 0 []).1.getLast? =
       some (Event.error "boom")) :=
  ⟨by decide, rfl,
   c5_stream_error_single_error 3 (fun _ => c5Turn) (fun _ => "") 1 0 [] "boom"
     (by decide) rfl⟩

/-- C6: a turn whose tool calls all lack a usable name ends as done, not
error: the assistant message is still stored, no dispatch event appears,
and in general every dispatched tool_call event names a surviving
(non-empty-named) call. -/
theorem c6_malformed_calls_done (maxIter : Nat) (oracle : Nat → Turn)
    (exec : ToolCall → String) (fuel turnIdx : Nat) (msgs : List Msg)
    (hfuel : 0 < fuel)
    (hok : (oracle turnIdx).streamError = none)
    (hsome : (runStream (oracle turnIdx).chunks).toolCalls ≠ [])
    (hinv : (runStream (oracle turnIdx).chunks).toolCalls.filter validCall = []) :
    chatLoop maxIter oracle exec fuel turnIdx msgs =
      ((runStream (oracle turnIdx).chunks).events ++ [Event.done],
       addAssistantMessage msgs (some (runStream (oracle turnIdx).chunks).text)
         (runStream (oracle turnIdx).chunks).toolCalls) ∧
    (chatLoop maxIter oracle exec fuel turnIdx msgs).1.getLast? = some Event.done ∧
    (chatLoop maxIter oracle exec fuel turnIdx msgs).1.filter isDispatchEv = [] ∧
    (∀ (fuel' turnIdx' : Nat) (msgs' : List Msg) (t a : String),
       Event.tool_call t a ∈ (chatLoop maxIter oracle exec fuel' turnIdx' msgs').1 →
       t ≠ "") := by
  obtain ⟨f, rfl⟩ : ∃ f, fuel = f + 1 := ⟨fuel - 1, by omega⟩
  have h1 : (runStream (oracle turnIdx).chunks).toolCalls.isEmpty = false := by
    cases hL : (runStream (oracle turnIdx).chunks).toolCalls with
    | nil => exact absurd hL hsome
    | cons a t => rfl
  have h2 : ((runStream (oracle turnIdx).chunks).toolCalls.filter validCall).isEmpty
      = true := by
    rw [hinv]
    rfl
  have hmain : chatLoop maxIter oracle exec (f + 1) turnIdx msgs =
      ((runStream (oracle turnIdx).chunks).events ++ [Event.done],
       addAssistantMessage msgs (some (runStream (oracle turnIdx).chunks).text)
         (runStream (oracle turnIdx).chunks).toolCalls) := by
    simp only [chatLoop, hok, h1, h2, Bool.false_eq_true, if_false, if_true]
  refine ⟨hmain, ?_, ?_, ?_⟩
  · rw [hmain]
    exact List.getLast?_concat _
  · rw [hmain]
    rw [List.filter_append,
      List.filter_eq_nil_iff.mpr
        (fun x hx => by simp [runStream_no_dispatch (oracle turnIdx).chunks x hx])]
    rfl
  · exact fun f' i' m' t a => chatLoop_toolcall_names maxIter oracle exec f' i' m' t a

/-- C6 witness: a turn with two calls, one missing its name and one with
an empty-string name. -/
theorem c6_malformed_calls_done_witness :
    0 < 1 ∧ c6Turn.streamError = none ∧
    (runStream c6Turn.chunks).toolCalls ≠ [] ∧
    (runStream c6Turn.chunks).toolCalls.filter validCall = [] ∧
    (chatLoop 5 (fun _ => c6Turn) (fun _ => "") 1 0 [] =
       ((runStream c6Turn.chunks).events ++ [Event.done],
        addAssistantMessage [] (some (runStream c6Turn.chunks).text)
          (runStream c6Turn.chunks).toolCalls) ∧
     (chatLoop 5 (fun _ => c6Turn) (fun _ => "") 1 0 []).1.getLast? =
       some Event.done ∧
     (chatLoop 5 (fun _ => c6Turn) (fun _ => "") 1 0 []).1.filter isDispatchEv = [] ∧
     (∀ (fuel' turnIdx' : Nat) (msgs' : List Msg) (t a : String),
        Event.tool_call t a ∈
          (chatLoop 5 (fun _ => c6Turn) (fun _ => "") fuel' turnIdx' msgs').1 →
        t ≠ "")) :=
  ⟨by decide, rfl, by decide, by decide,
   c6_malformed_calls_done 5 (fun _ => c6Turn) (fun _ => "") 1 0 []
     (by decide) rfl (by decide) (by decide)⟩

/-- C7: a denied confirmation on an unsafe command yields the rejection
result without running the command (the result is the same for every
runner), the dispatch step stores any result as a tool message and
continues, and tool results never make the loop emit an error event. -/
theorem c7_confirmation_denial (run : String → Except String ShellResult)
    (cb : String → String → Bool) (args : ShellArgs) (opts : ExecOptions)
    (exec : ToolCall → String)
    (hnosafe : (checkCommandSafety args.command).safe = false)
    (hcb : opts.confirmCallback = some cb)
    (hdeny : cb args.command ((checkCommandSafety args.command).reason.getD "") = false) :
    shellExecute run "run_command" args opts = rejectedResult args.command ∧
    (∀ (tc : ToolCall) (msgs : List Msg), dispatch exec [tc] msgs =
       ([Event.tool_call (tc.name.getD "") tc.arguments,
         Event.tool_result (tc.name.getD "") (exec tc)],
        addToolResult msgs tc.id (tc.name.getD "") (exec tc))) ∧
    (∀ (maxIter : Nat) (oracle : Nat → Turn) (fuel turnIdx : Nat) (msgs : List Msg),
       (∀ i, (oracle i).streamError = none) →
       (chatLoop maxIter oracle exec fuel turnIdx msgs).1.filter isErrorEv = []) := by
  refine ⟨?_, ?_, ?_⟩
  · have hreq := unsafe_requires_confirmation args.command hnosafe
    simp [shellExecute, hcb, hnosafe, hreq, hdeny, rejectedResult]
  · intro tc msgs
    simp [dispatch]
  · intro maxIter oracle fuel turnIdx msgs hoknone
    exact chatLoop_no_error maxIter oracle exec hoknone fuel turnIdx msgs

/-- C7 witness: the spec's Scenario C, command "rm -rf /tmp/x" with a
callback answering false. -/
theorem c7_confirmation_denial_witness :
    (checkCommandSafety "rm -rf /tmp/x").safe = false ∧
    (shellExecute (fun c => Except.ok { success := some true, command := some c })
       "run_command" { command := "rm -rf /tmp/x" }
       { confirmCallback := some (fun _ _ => false) } =
       rejectedResult "rm -rf /tmp/x" ∧
     (∀ (tc : ToolCall) (msgs : List Msg),
        dispatch (fun _ => "r") [tc] msgs =
          ([Event.tool_call (tc.name.getD "") tc.arguments,
            Event.tool_result (tc.name.getD "") "r"],
           addToolResult msgs tc.id (tc.name.getD "") "r")) ∧
     (∀ (maxIter : Nat) (oracle : Nat → Turn) (fuel turnIdx : Nat) (msgs : List Msg),
        (∀ i, (oracle i).streamError = none) →
        (chatLoop maxIter oracle (fun _ => "r") fuel turnIdx msgs).1.filter isErrorEv
          = [])) :=
  ⟨by decide,
   c7_confirmation_denial (fun c => Except.ok { success := some true, command := some c })
     (fun _ _ => false) { command := "rm -rf /tmp/x" }
     { confirmCallback := some (fun _ _ => false) } (fun _ => "r")
     (by decide) rfl rfl⟩

end TermAgent
